import Mathlib

/-!
Verification of the root-finding library `solver.py` (class `EquationSolver`).

The Python code is shallowly embedded over an arbitrary linear ordered field
`α` (instantiated at `ℚ` for executable evaluations and at `ℝ` where the
intermediate value theorem is needed).  Machine floats are modelled as exact
field elements; the float-specific failure mode of the secant iteration
(division by zero producing `inf`/`nan`) is modelled by an explicit
non-finite marker that is absorbing under arithmetic, mirroring IEEE
propagation for the arithmetic expressions the solver computes.

Randomness: `np.random.rand(2)` is modelled as an injected stream
`rng : ℕ → α × α` of draw pairs (each component standing for a uniform draw
in `[0, 1)`); the bracket-search loop consumes one pair per resampling step.

Loops are given explicit fuel where the source loop is bounded by data
(`n_sample`, `max_iter`) or where termination itself is one of the claims
(`__binary_search`, `__golden`); fuel exhaustion is a distinguished output
that the termination theorems rule out.
-/

section Defs

variable {α : Type} [LinearOrderedField α]

/-- `np.sign` on scalars: `1` for positive, `-1` for negative, `0` for zero. -/
def sgn (x : α) : α := if 0 < x then 1 else if x < 0 then -1 else 0

/-- Line 43: `self.__interval_max, self.__interval_min = sorted(interval)`.
`sorted` returns the pair in ascending order; the tuple assignment then puts
the *smaller* element into `__interval_max` and the *larger* one into
`__interval_min`.  The result is the stored pair
`(__interval_min, __interval_max)`. -/
def initIntervalFields (iv : α × α) : α × α :=
  let s := if iv.1 ≤ iv.2 then iv else (iv.2, iv.1)
  (s.2, s.1)

/-- Line 86: `(self.__interval_max - self.__interval_min) * np.random.rand(2)
+ self.__interval_min`, applied to one draw pair.  `lo`/`hi` are the stored
`__interval_min`/`__interval_max` fields. -/
def scale2 (lo hi : α) (r : α × α) : α × α :=
  ((hi - lo) * r.1 + lo, (hi - lo) * r.2 + lo)

/-- Line 88: `interval.sort()` on the two-element list. -/
def sort2 (pr : α × α) : α × α := if pr.1 ≤ pr.2 then pr else (pr.2, pr.1)

/-- Lines 82–87, the `while` loop of `__setInterval`.  The loop keeps
sampling while `np.prod(np.sign(f(interval))) >= 0`; inside the body it
first checks `count_sample == n_sample` (here: fuel `0`) and raises
`RuntimeError` (`.error ()`), otherwise draws a fresh scaled pair.  The
stream is shifted by one on each draw, so the pair checked after `k + 1`
draws is `scale2 lo hi (rng k)` of the original stream. -/
def bracketLoop (f : α → α) (lo hi : α) :
    ℕ → (ℕ → α × α) → α × α → Except Unit (α × α)
  | fuel, rng, pr =>
    if 0 ≤ sgn (f pr.1) * sgn (f pr.2) then
      match fuel with
      | 0 => .error ()
      | fuel + 1 =>
          bracketLoop f lo hi fuel (fun k => rng (k + 1)) (scale2 lo hi (rng 0))
    else .ok pr

/-- Lines 80–89, `__setInterval`: start from the stored pair
`[__interval_min, __interval_max]`, run the sampling loop with budget
`n_sample`, and sort the surviving pair; the sorted pair is what gets stored
back into `(__interval_min, __interval_max)`. -/
def setInterval (f : α → α) (lo hi : α) (n_sample : ℕ) (rng : ℕ → α × α) :
    Except Unit (α × α) :=
  (bracketLoop f lo hi n_sample rng (lo, hi)).map sort2

/-- Which of the three algorithms the instance was configured with. -/
inductive SolverName : Type
  | bisect | secant | golden
deriving DecidableEq

/-- The instance fields of `EquationSolver` relevant to `solve`'s state
effect.  `__func` is not modelled as a field: it is set from the `solve`
argument on every call and never read across calls. -/
structure Solver (α : Type) where
  solver : SolverName
  max_iter : ℕ
  interval_min : α
  interval_max : α
  precision : α
  n_sample : ℕ
deriving DecidableEq

/-- The effect of `solve` (lines 58–78) on the instance fields: `solve`
calls `__setInterval`, which reassigns `__interval_min`/`__interval_max` to
the sorted bracket (line 89) or raises; the three refiners
(`__binary_search`, `__secant`, `__golden`, lines 91–131) read the fields
into locals and never write any instance field. -/
def solveStateAfter (s : Solver α) (f : α → α) (rng : ℕ → α × α) :
    Except Unit (Solver α) :=
  (setInterval f s.interval_min s.interval_max s.n_sample rng).map
    fun pr => { s with interval_min := pr.1, interval_max := pr.2 }

/-- Lines 95–99, one bisection update of `(left, right)`:
`mid = left + (right - left) / 2`; if `np.sign(f(mid)) == np.sign(f(left))`
then `left = mid` else `right = mid`. -/
def bisectStep (f : α → α) (l r : α) : α × α :=
  let mid := l + (r - l) / 2
  if sgn (f mid) = sgn (f l) then (mid, r) else (l, mid)

/-- Lines 94–99, the `while (right - left) >= precision` loop of
`__binary_search`, with fuel; `none` is fuel exhaustion (the source loop has
no iteration cap, and its termination is proved separately). -/
def bisectLoop (f : α → α) (p : α) : α → α → ℕ → Option (α × α)
  | l, r, fuel =>
    if p ≤ r - l then
      match fuel with
      | 0 => none
      | fuel + 1 => bisectLoop f p (bisectStep f l r).1 (bisectStep f l r).2 fuel
    else some (l, r)

/-- Lines 91–100, `__binary_search`: run the loop from the stored interval
and return `left + (right - left) / 2` of the final pair. -/
def binary_search (f : α → α) (p l r : α) (fuel : ℕ) : Option α :=
  (bisectLoop f p l r fuel).map fun lr => lr.1 + (lr.2 - lr.1) / 2

/-- A Python float value flowing through the secant iteration: either a finite
number or a non-finite float (`inf`/`-inf`/`nan`), which the exact-field
embedding does not distinguish further. -/
inductive FVal (α : Type) : Type
  | fin (x : α)
  | nonfin
deriving DecidableEq

/-- The float equality test `previous == current` (line 105).  `nan == x` is
always false; `inf == inf` would be true in IEEE, but once the iteration
holds a non-finite value the loop outcome (a non-finite return, no raise) is
the same under either choice, so non-finite values are compared unequal. -/
def feq : FVal α → FVal α → Bool
  | .fin a, .fin b => decide (a = b)
  | _, _ => false

/-- Line 107, one secant update of `current`:
`current - f(current) * (current - previous) / (f(current) - f(previous))`.
When `f(current) - f(previous) = 0` the float division by zero yields a
non-finite value (numpy emits a warning, not an exception); arithmetic on a
non-finite operand stays non-finite. -/
def secantStep (f : α → α) : FVal α → FVal α → FVal α
  | .fin p, .fin c =>
      if f c - f p = 0 then .nonfin
      else .fin (c - f c * (c - p) / (f c - f p))
  | _, _ => .nonfin

/-- Lines 104–108, the `for _ in range(max_iter)` loop of `__secant`:
break when `previous == current`, otherwise shift
`previous, current = current, <secant update>`; return `current`. -/
def secantLoop (f : α → α) : FVal α → FVal α → ℕ → FVal α
  | _, cur, 0 => cur
  | prev, cur, fuel + 1 =>
      if feq prev cur then cur
      else secantLoop f cur (secantStep f prev cur) fuel

/-- Lines 102–108, `__secant`, started from the stored
`(__interval_min, __interval_max)` pair. -/
def secant (f : α → α) (x0 x1 : α) (max_iter : ℕ) : FVal α :=
  secantLoop f (.fin x0) (.fin x1) max_iter

/-- Line 111: `gamma = 0.3819660112501051` (an exact decimal literal). -/
def gamma : α := 3819660112501051 / 10 ^ 16

/-- Outcome of `__golden`: a returned value, the `UnboundLocalError` raised
by `return x1` when the loop body never assigned `x1`, or fuel exhaustion of
the embedding (ruled out by the termination theorem). -/
inductive GoldenOut (α : Type) : Type
  | ok (x : α)
  | unboundLocal
  | fuelOut
deriving DecidableEq

/-- Line 131, `return x1`: the local `x1` either holds its last assigned
value or was never assigned, in which case Python raises
`UnboundLocalError`. -/
def goldenFinish : Option α → GoldenOut α
  | some x => .ok x
  | none => .unboundLocal

/-- Lines 116–130, the `while (b - a) > self.__precision` loop of
`__golden`.  State: the window `(a, b)`, the locals `x1`, `x2` (unassigned
at entry, hence `Option`), and `(a_prev, b_prev)` (initialised to `None`,
line 115).  Each iteration recomputes the probes
`x1 = a + gamma * (b - a)` and `x2 = a + (1 - gamma) * (b - a)`
(lines 121–122) and then shifts one side of the window, reusing the other
probe (lines 123–130). -/
def goldenLoop (f : α → α) (p : α) :
    α → α → Option α → Option α → Option (α × α) → ℕ → GoldenOut α
  | a, b, x1, _x2, prev, fuel =>
    if b - a ≤ p then goldenFinish x1
    else if a = b ∨ prev = some (a, b) then goldenFinish x1
    else
      match fuel with
      | 0 => .fuelOut
      | fuel + 1 =>
        let x1n := a + gamma * (b - a)
        let x2n := a + (1 - gamma) * (b - a)
        if sgn (f a) = sgn (f x1n) then
          goldenLoop f p x1n b (some x2n)
            (some (x1n + (1 - gamma) * (b - x1n))) (some (a, b)) fuel
        else
          goldenLoop f p a x2n (some (a + gamma * (x2n - a)))
            (some x1n) (some (a, b)) fuel

/-- Lines 110–131, `__golden`, entered from the stored interval with `x1`,
`x2` unassigned and `a_prev = b_prev = None`. -/
def golden (f : α → α) (p a b : α) (fuel : ℕ) : GoldenOut α :=
  goldenLoop f p a b none none none fuel

/-- The pair `(a, b)` after one golden-section iteration: `a` moves to `x1`
when `sign(f(a)) == sign(f(x1))` (line 124), otherwise `b` moves to `x2`
(line 128). -/
def goldenNext (f : α → α) (a b : α) : α × α :=
  if sgn (f a) = sgn (f (a + gamma * (b - a))) then (a + gamma * (b - a), b)
  else (a, a + (1 - gamma) * (b - a))

end Defs

section PyInit

/-- A Python value passed for the numeric constructor parameters: an `int`
or a `float` (both satisfy `isinstance(·, numbers.Number)`).  Floats are
modelled as exact rationals. -/
inductive PyNum : Type
  | int (n : ℤ)
  | float (q : ℚ)
deriving DecidableEq

/-- Numeric value of a `PyNum`. -/
def PyNum.toRat : PyNum → ℚ
  | .int n => n
  | .float q => q

/-- `isinstance(·, int)`. -/
def PyNum.isInt : PyNum → Bool
  | .int _ => true
  | .float _ => false

/-- `isinstance(·, numbers.Number)`: true for both modelled shapes. -/
def PyNum.isNumber : PyNum → Bool
  | _ => true

/-- Line 24 condition (Python precedence:
`(solver == "secant" and not isinstance(max_iter, int)) or max_iter <= 0`);
`true` means the constructor raises `ValueError`. -/
def maxIterRaises (s : SolverName) (m : PyNum) : Bool :=
  (s == .secant && !m.isInt) || decide (m.toRat ≤ 0)

/-- Line 45 condition (Python precedence:
`(solver in {"bisect","golden"} and not isinstance(precision, Number)) or
precision <= 0`); `true` means the constructor raises `ValueError`. -/
def precisionRaises (s : SolverName) (p : PyNum) : Bool :=
  ((s == .bisect || s == .golden) && !p.isNumber) || decide (p.toRat ≤ 0)

end PyInit

section ConcreteInstances

/-- A concrete solver instance: `EquationSolver(interval=(-1, 4), n_sample=5)`
(other parameters default-like).  Its stored interval fields come from the
line-43 assignment. -/
def s0 : Solver ℚ :=
  { solver := .bisect
    max_iter := 10000
    interval_min := (initIntervalFields ((-1 : ℚ), 4)).1
    interval_max := (initIntervalFields ((-1 : ℚ), 4)).2
    precision := 1 / 10 ^ 10
    n_sample := 5 }

/-- Concrete test function `f(x) = x * (x - 3)`: same sign (`+`) at `-1`
and `4`, so the bracket search must resample. -/
def f0 (x : ℚ) : ℚ := x * (x - 3)

/-- Concrete random stream: every `np.random.rand(2)` draw returns
`(0.4, 0.9)`. -/
def rng0 (_ : ℕ) : ℚ × ℚ := (2 / 5, 9 / 10)

/-- Concrete function realising the secant degenerate state: with starting
points `0` and `1`, the first secant update lands on `1 / 2`, where
`degf (1/2) = degf 1 = -1` while `1/2 ≠ 1`. -/
def degf (x : ℚ) : ℚ := if x = 0 then 1 else -1

end ConcreteInstances

section SgnLemmas

variable {α : Type} [LinearOrderedField α]

theorem sgn_of_pos {x : α} (h : 0 < x) : sgn x = 1 := by
  simp [sgn, h]

theorem sgn_of_neg {x : α} (h : x < 0) : sgn x = -1 := by
  simp [sgn, asymm h, h]

theorem sgn_of_zero {x : α} (h : x = 0) : sgn x = 0 := by
  simp [sgn, h]

theorem sgn_ne_of_mul_neg {a b : α} (h : sgn a * sgn b < 0) : sgn a ≠ sgn b :=
  fun he => absurd h (by rw [he]; exact not_lt.mpr (mul_self_nonneg _))

end SgnLemmas

section ConstructorClaims

/-- C1: the claim states that after any mutation of the stored interval,
including construction from a user pair `(a, b)`, the stored pair satisfies
`min ≤ max`.  Evaluating the line-43 assignment at the interval `(1, 2)`
shows the constructor stores `__interval_min = 2` and `__interval_max = 1`,
so the stored pair is reverse-sorted: the code slips by unpacking the
ascending `sorted(interval)` into `(__interval_max, __interval_min)`. -/
theorem init_stores_interval_reversed :
    initIntervalFields ((1 : ℚ), 2) = (2, 1) ∧
    ¬ (initIntervalFields ((1 : ℚ), 2)).1 ≤ (initIntervalFields ((1 : ℚ), 2)).2 := by
  norm_num [initIntervalFields]

/-- C10: the constructor raises `ValueError` whenever `max_iter ≤ 0`
(whatever the algorithm) and whenever `precision ≤ 0` (whatever the
algorithm), while a non-integer positive `max_iter` passes the line-24
check for the `bisect` and `golden` algorithms. -/
theorem init_validation_conditions :
    ∀ (s : SolverName) (m p : PyNum),
      (m.toRat ≤ 0 → maxIterRaises s m = true) ∧
      (p.toRat ≤ 0 → precisionRaises s p = true) ∧
      ((s = .bisect ∨ s = .golden) → m.isInt = false → 0 < m.toRat →
        maxIterRaises s m = false) := by
  intro s m p
  refine ⟨fun h => ?_, fun h => ?_, fun hs hint hpos => ?_⟩
  · simp [maxIterRaises, h]
  · simp [precisionRaises, h]
  · rcases hs with hs | hs <;> subst hs <;>
      simp [maxIterRaises, hint, not_le.mpr hpos]

/-- Witness for C10 at concrete parameter values: `max_iter = -3` raises for
`bisect`, `precision = 0.0` raises for `secant`, and the non-integer
`max_iter = 3.5` is accepted for `golden`. -/
theorem init_validation_witness :
    ((PyNum.int (-3)).toRat ≤ 0 ∧ maxIterRaises .bisect (.int (-3)) = true) ∧
    ((PyNum.float 0).toRat ≤ 0 ∧ precisionRaises .secant (.float 0) = true) ∧
    ((PyNum.float (7 / 2)).isInt = false ∧ 0 < (PyNum.float (7 / 2)).toRat ∧
      maxIterRaises .golden (.float (7 / 2)) = false) :=
  ⟨⟨by norm_num [PyNum.toRat],
      (init_validation_conditions .bisect (.int (-3)) (.float 0)).1
        (by norm_num [PyNum.toRat])⟩,
    ⟨by norm_num [PyNum.toRat],
      (init_validation_conditions .secant (.int 1) (.float 0)).2.1
        (by norm_num [PyNum.toRat])⟩,
    ⟨rfl, by norm_num [PyNum.toRat],
      (init_validation_conditions .golden (.float (7 / 2)) (.float 1)).2.2
        (Or.inr rfl) rfl (by norm_num [PyNum.toRat])⟩⟩

end ConstructorClaims

section GoldenDegenerate

set_option maxHeartbeats 1000000 in
/-- C4: the claim states that a degenerate entry bracket (`a == b`, or more
generally `b - a` already at or below the precision) makes `__golden`
return the endpoint immediately without error.  Evaluating the code shows
the loop body never runs and `return x1` hits the unassigned local `x1`,
raising `UnboundLocalError` instead of returning a value: first with
`a = b = 1` and precision `1`, then with bracket `(0, 1/2)` of width below
precision `1`. -/
theorem golden_degenerate_raises_unbound :
    golden (fun x : ℚ => x) 1 1 1 5 = .unboundLocal ∧
    golden (fun x : ℚ => x * x - 2) 1 0 (1 / 2) 5 = .unboundLocal :=
  ⟨by norm_num [golden, goldenLoop, goldenFinish],
    by norm_num [golden, goldenLoop, goldenFinish]⟩

end GoldenDegenerate

section BracketLemmas

variable {α : Type} [LinearOrderedField α]

/-- The sampling loop only succeeds on a pair whose sign product is
strictly negative (the `while` guard keeps sampling on `≥ 0`). -/
theorem bracketLoop_ok_sign (f : α → α) (lo hi : α) :
    ∀ (fuel : ℕ) (rng : ℕ → α × α) (pr pr2 : α × α),
      bracketLoop f lo hi fuel rng pr = .ok pr2 →
      sgn (f pr2.1) * sgn (f pr2.2) < 0 := by
  intro fuel
  induction fuel with
  | zero =>
    intro rng pr pr2 h
    rw [bracketLoop] at h
    split_ifs at h with hc
    rw [Except.ok.injEq] at h
    exact h ▸ lt_of_not_le hc
  | succ n ih =>
    intro rng pr pr2 h
    rw [bracketLoop] at h
    split_ifs at h with hc
    · exact ih _ _ _ h
    · rw [Except.ok.injEq] at h
      exact h ▸ lt_of_not_le hc

/-- The sampling loop fails with `RuntimeError` exactly when the starting
pair and all `fuel` subsequently drawn pairs have non-negative sign
product. -/
theorem bracketLoop_error_iff (f : α → α) (lo hi : α) :
    ∀ (fuel : ℕ) (rng : ℕ → α × α) (pr : α × α),
      bracketLoop f lo hi fuel rng pr = .error () ↔
        0 ≤ sgn (f pr.1) * sgn (f pr.2) ∧
        ∀ k, k < fuel →
          0 ≤ sgn (f (scale2 lo hi (rng k)).1) * sgn (f (scale2 lo hi (rng k)).2) := by
  intro fuel
  induction fuel with
  | zero =>
    intro rng pr
    rw [bracketLoop]
    split_ifs with hc
    · simp [hc]
    · simp [hc]
  | succ n ih =>
    intro rng pr
    rw [bracketLoop]
    split_ifs with hc
    · rw [ih]
      constructor
      · rintro ⟨h0, hs⟩
        refine ⟨hc, fun k hk => ?_⟩
        cases k with
        | zero => exact h0
        | succ k => exact hs k (Nat.lt_of_succ_lt_succ hk)
      · rintro ⟨_, hs⟩
        exact ⟨hs 0 (Nat.succ_pos n), fun k hk => hs (k + 1) (Nat.succ_lt_succ hk)⟩
    · simp [hc]

/-- `sgn (x ^ 2 + 1) = 1` in any linear ordered field. -/
theorem sgn_sq_add_one (x : α) : sgn (x ^ 2 + 1) = 1 :=
  sgn_of_pos (by positivity)

end BracketLemmas

section BracketClaims

/-- C5: whenever `__setInterval` returns without raising, the stored pair
`(min, max)` satisfies `min ≤ max` together with the strict sign condition
`sign(f(min)) * sign(f(max)) < 0`; and a pair with sign product zero is
never accepted — the loop takes the resampling branch on it. -/
theorem bracket_success_postcondition {α : Type} [LinearOrderedField α]
    (f : α → α) (lo hi : α) (n : ℕ) (rng : ℕ → α × α) :
    (∀ m M, setInterval f lo hi n rng = .ok (m, M) →
        m ≤ M ∧ sgn (f m) * sgn (f M) < 0) ∧
    (∀ (fuel : ℕ) (rng2 : ℕ → α × α) (pr : α × α),
        sgn (f pr.1) * sgn (f pr.2) = 0 →
        bracketLoop f lo hi (fuel + 1) rng2 pr =
          bracketLoop f lo hi fuel (fun k => rng2 (k + 1)) (scale2 lo hi (rng2 0))) := by
  constructor
  · intro m M h
    rw [setInterval] at h
    cases hb : bracketLoop f lo hi n rng (lo, hi) with
    | error e => rw [hb] at h; exact absurd h (by simp [Except.map])
    | ok pr =>
      have hsign := bracketLoop_ok_sign f lo hi n rng (lo, hi) pr hb
      rw [hb] at h
      simp only [Except.map, Except.ok.injEq] at h
      rcases pr with ⟨u, v⟩
      rw [sort2] at h
      split_ifs at h with hle
      · obtain ⟨rfl, rfl⟩ := Prod.mk.injEq .. ▸ h
        exact ⟨hle, hsign⟩
      · simp only [Prod.mk.injEq] at h
        obtain ⟨rfl, rfl⟩ := h
        exact ⟨le_of_not_le hle, by rw [mul_comm]; exact hsign⟩
  · intro fuel rng2 pr h
    conv_lhs => rw [bracketLoop]
    rw [if_pos (le_of_eq h.symm)]

/-- Witness for C5: with `f(x) = x` and the stored (reverse-sorted) pair
`(2, -1)`, the search accepts the initial pair at once; the returned
bracket is sorted and strictly sign-changing. -/
theorem bracket_success_witness :
    setInterval (fun x : ℚ => x) 2 (-1) 5 (fun _ => (0, 0)) = .ok (-1, 2) ∧
    ((-1 : ℚ) ≤ 2 ∧
      sgn ((fun x : ℚ => x) (-1)) * sgn ((fun x : ℚ => x) 2) < 0) :=
  ⟨by norm_num [setInterval, bracketLoop, sgn, sort2, Except.map],
    (bracket_success_postcondition (fun x : ℚ => x) 2 (-1) 5 (fun _ => (0, 0))).1
      (-1) 2 (by norm_num [setInterval, bracketLoop, sgn, sort2, Except.map])⟩

/-- C6: the bracket search raises `RuntimeError` (`NoBracketFound`) exactly
when the sample budget is exhausted with every checked pair having
non-negative sign product; and for `f(x) = x^2 + 1` every call fails this
way, whatever the interval, sample budget, and random stream — both at the
`__setInterval` level and for the whole `solve` state transition. -/
theorem bracket_exhaustion_characterization {α : Type} [LinearOrderedField α] :
    (∀ (f : α → α) (lo hi : α) (fuel : ℕ) (rng : ℕ → α × α) (pr : α × α),
        bracketLoop f lo hi fuel rng pr = .error () ↔
          0 ≤ sgn (f pr.1) * sgn (f pr.2) ∧
          ∀ k, k < fuel →
            0 ≤ sgn (f (scale2 lo hi (rng k)).1) *
                sgn (f (scale2 lo hi (rng k)).2)) ∧
    (∀ (lo hi : α) (n : ℕ) (rng : ℕ → α × α),
        setInterval (fun x => x ^ 2 + 1) lo hi n rng = .error ()) ∧
    (∀ (s : Solver α) (rng : ℕ → α × α),
        solveStateAfter s (fun x => x ^ 2 + 1) rng = .error ()) := by
  have herr : ∀ (lo hi : α) (n : ℕ) (rng : ℕ → α × α),
      setInterval (fun x : α => x ^ 2 + 1) lo hi n rng = .error () := by
    intro lo hi n rng
    rw [setInterval, (bracketLoop_error_iff _ lo hi n rng (lo, hi)).mpr]
    · rfl
    · exact ⟨by rw [sgn_sq_add_one, sgn_sq_add_one]; norm_num,
        fun k _ => by rw [sgn_sq_add_one, sgn_sq_add_one]; norm_num⟩
  exact ⟨fun f lo hi fuel rng pr => bracketLoop_error_iff f lo hi fuel rng pr,
    herr, fun s rng => by rw [solveStateAfter, herr]; rfl⟩

/-- Witness for C6: with `f(x) = x^2 + 1`, the stored interval `(2, -1)`,
budget `3`, and a constant random stream, the search raises. -/
theorem bracket_exhaustion_witness :
    setInterval (fun x : ℚ => x ^ 2 + 1) 2 (-1) 3 (fun _ => (1 / 2, 1 / 2)) =
      .error () :=
  (@bracket_exhaustion_characterization ℚ _).2.1 2 (-1) 3 (fun _ => (1 / 2, 1 / 2))

end BracketClaims

section SolveStateClaims

/-- C2 counterexample: the claim states that a `solve` call leaves the
configured interval bounds unchanged.  On the instance constructed with
`interval=(-1, 4)` (stored fields `(4, -1)`), `f(x) = x(x-3)` (same sign at
both stored endpoints), and the random stream that always draws
`(0.4, 0.9)`, `solve` returns normally and leaves the stored interval
fields equal to the freshly found bracket `(-1/2, 2)`, not to the bounds
held before the call. -/
theorem solve_mutates_stored_interval_cex :
    solveStateAfter s0 f0 rng0 =
      .ok { s0 with interval_min := -(1 / 2), interval_max := 2 } ∧
    ((-(1 / 2) : ℚ), (2 : ℚ)) ≠ (s0.interval_min, s0.interval_max) := by
  constructor
  · norm_num [solveStateAfter, setInterval, bracketLoop, sgn, sort2, scale2,
      Except.map, s0, f0, rng0, initIntervalFields]
  · norm_num [s0, initIntervalFields]

/-- C2 amended: a successful `solve` overwrites exactly the two stored
interval fields with the bracket found by the search, leaving every other
configuration field unchanged; since the found bracket generally differs
from the configured bounds, a second `solve` starts its bracket search from
the previous call's bracket. -/
theorem solve_updates_only_interval_fields {α : Type} [LinearOrderedField α]
    (s : Solver α) (f : α → α) (rng : ℕ → α × α) (m M : α)
    (h : setInterval f s.interval_min s.interval_max s.n_sample rng = .ok (m, M)) :
    solveStateAfter s f rng = .ok { s with interval_min := m, interval_max := M } := by
  rw [solveStateAfter, h]
  rfl

/-- Witness for the amended C2 on the concrete run of the counterexample
instance. -/
theorem solve_updates_witness :
    setInterval f0 s0.interval_min s0.interval_max s0.n_sample rng0 =
      .ok (-(1 / 2), 2) ∧
    solveStateAfter s0 f0 rng0 =
      .ok { s0 with interval_min := -(1 / 2), interval_max := 2 } :=
  ⟨by norm_num [setInterval, bracketLoop, sgn, sort2, scale2, Except.map,
      s0, f0, rng0, initIntervalFields],
    solve_updates_only_interval_fields s0 f0 rng0 (-(1 / 2)) 2
      (by norm_num [setInterval, bracketLoop, sgn, sort2, scale2, Except.map,
        s0, f0, rng0, initIntervalFields])⟩

end SolveStateClaims

section SecantClaims

/-- Once `current` is non-finite, every further secant iteration keeps it
non-finite and the loop's `previous == current` break never fires (float
comparisons with `nan` are false), so the loop returns a non-finite value. -/
theorem secantLoop_nonfin_absorb {α : Type} [LinearOrderedField α]
    (f : α → α) :
    ∀ (fuel : ℕ) (prev : FVal α), secantLoop f prev .nonfin fuel = .nonfin := by
  intro fuel
  induction fuel with
  | zero => intro prev; rfl
  | succ n ih => intro prev; cases prev <;> simp [secantLoop, feq, secantStep, ih]

/-- C3 counterexample: the claim states that on reaching a state with
`f(current) = f(previous)` and `current ≠ previous` the solver raises a
`DegenerateIteration` error and never returns a non-finite value.  With
`degf` and starting points `(0, 1)`, the iteration reaches the state
`previous = 1`, `current = 1/2` where `degf (1/2) = degf 1` and
`1/2 ≠ 1`; the code raises nothing and returns the non-finite value
produced by the division by zero to the caller. -/
theorem secant_degenerate_returns_nonfinite_cex :
    secant degf 0 1 5 = .nonfin ∧ degf (1 / 2) = degf 1 ∧ (1 / 2 : ℚ) ≠ 1 := by
  refine ⟨?_, by norm_num [degf], by norm_num⟩
  norm_num [secant, secantLoop, secantStep, feq, degf]

/-- C3 amended: when the secant iteration reaches a state with
`f(current) = f(previous)` while `current ≠ previous`, the division by zero
produces a non-finite float that propagates through all remaining
iterations and is returned to the caller as the estimate; no error is
raised (the code defines no `DegenerateIteration`). -/
theorem secant_degenerate_propagates {α : Type} [LinearOrderedField α]
    (f : α → α) (prev cur : α) (fuel : ℕ)
    (h1 : f cur = f prev) (h2 : cur ≠ prev) :
    secantLoop f (.fin prev) (.fin cur) (fuel + 1) = .nonfin := by
  have hne : prev ≠ cur := fun he => h2 he.symm
  rw [secantLoop]
  simp only [feq, decide_eq_false hne, if_false, Bool.false_eq_true]
  rw [show secantStep f (.fin prev) (.fin cur) = .nonfin by
    simp [secantStep, sub_eq_zero.mpr h1]]
  exact secantLoop_nonfin_absorb f fuel _

/-- Witness for the amended C3: a constant function degenerates on the
first step and the loop returns a non-finite value. -/
theorem secant_degenerate_witness :
    ((fun _ : ℚ => (1 : ℚ)) 1 = (fun _ : ℚ => (1 : ℚ)) 0) ∧ (1 : ℚ) ≠ 0 ∧
    secantLoop (fun _ : ℚ => 1) (.fin 0) (.fin 1) (2 + 1) = .nonfin :=
  ⟨rfl, by norm_num,
    secant_degenerate_propagates (fun _ => 1) 0 1 2 rfl (by norm_num)⟩

end SecantClaims

section BisectInvariantClaim

/-- C8: one pass of the bisection loop body preserves the invariant
`sign(f(left)) ≠ sign(f(right))`: if the midpoint sign matches the left
sign the midpoint replaces `left`, otherwise it replaces `right`, and in
both cases the new pair still has differing signs before the loop condition
is re-tested. -/
theorem bisect_step_preserves_sign_change {α : Type} [LinearOrderedField α]
    (f : α → α) (l r : α) (h : sgn (f l) ≠ sgn (f r)) :
    sgn (f (bisectStep f l r).1) ≠ sgn (f (bisectStep f l r).2) := by
  rw [bisectStep]
  by_cases hc : sgn (f (l + (r - l) / 2)) = sgn (f l)
  · rw [if_pos hc, hc]
    exact h
  · rw [if_neg hc]
    exact fun he => hc he.symm

/-- Witness for C8 with `f(x) = x - 5` on the bracket `(0, 10)`. -/
theorem bisect_step_witness :
    sgn ((fun x : ℚ => x - 5) 0) ≠ sgn ((fun x : ℚ => x - 5) 10) ∧
    sgn ((fun x : ℚ => x - 5) (bisectStep (fun x : ℚ => x - 5) 0 10).1) ≠
      sgn ((fun x : ℚ => x - 5) (bisectStep (fun x : ℚ => x - 5) 0 10).2) :=
  ⟨by norm_num [sgn],
    bisect_step_preserves_sign_change (fun x : ℚ => x - 5) 0 10 (by norm_num [sgn])⟩

end BisectInvariantClaim

section BisectAnalysis

variable {α : Type} [LinearOrderedField α]

/-- Both branches of the bisection update halve the bracket width. -/
theorem bisectStep_width (f : α → α) (l r : α) :
    (bisectStep f l r).2 - (bisectStep f l r).1 = (r - l) / 2 := by
  rw [bisectStep]
  split_ifs <;> dsimp only <;> ring

/-- Loop invariant of `__binary_search`: starting from an ordered pair with
differing signs, a normal exit yields a sub-bracket of the original pair,
still ordered and sign-differing, of width below the precision. -/
theorem bisectLoop_invariant (f : α → α) (p : α) :
    ∀ (fuel : ℕ) (l r l2 r2 : α), l ≤ r → sgn (f l) ≠ sgn (f r) →
      bisectLoop f p l r fuel = some (l2, r2) →
      l ≤ l2 ∧ l2 ≤ r2 ∧ r2 ≤ r ∧ sgn (f l2) ≠ sgn (f r2) ∧ r2 - l2 < p := by
  intro fuel
  induction fuel with
  | zero =>
    intro l r l2 r2 hlr hs h
    rw [bisectLoop] at h
    split_ifs at h with hc
    rw [Option.some.injEq, Prod.mk.injEq] at h
    obtain ⟨rfl, rfl⟩ := h
    exact ⟨le_refl _, hlr, le_refl _, hs, lt_of_not_le hc⟩
  | succ n ih =>
    intro l r l2 r2 hlr hs h
    rw [bisectLoop] at h
    split_ifs at h with hc
    · have hml : l ≤ l + (r - l) / 2 := by linarith
      have hmr : l + (r - l) / 2 ≤ r := by linarith
      by_cases hc2 : sgn (f (l + (r - l) / 2)) = sgn (f l)
      · rw [show bisectStep f l r = (l + (r - l) / 2, r) from by
          rw [bisectStep]; exact if_pos hc2] at h
        obtain ⟨h1, h2, h3, h4, h5⟩ :=
          ih (l + (r - l) / 2) r l2 r2 hmr (by rw [hc2]; exact hs) h
        exact ⟨le_trans hml h1, h2, h3, h4, h5⟩
      · rw [show bisectStep f l r = (l, l + (r - l) / 2) from by
          rw [bisectStep]; exact if_neg hc2] at h
        obtain ⟨h1, h2, h3, h4, h5⟩ :=
          ih l (l + (r - l) / 2) l2 r2 hml (fun he => hc2 he.symm) h
        exact ⟨h1, h2, le_trans h3 hmr, h4, h5⟩
    · rw [Option.some.injEq, Prod.mk.injEq] at h
      obtain ⟨rfl, rfl⟩ := h
      exact ⟨le_refl _, hlr, le_refl _, hs, lt_of_not_le hc⟩

/-- With enough fuel the bisection loop exits normally: the width is halved
each iteration, so once `(1/2)^k` scales the initial width below the
precision, `k` iterations suffice. -/
theorem bisectLoop_isSome (f : α → α) (p : α) :
    ∀ (k : ℕ) (l r : α) (fuel : ℕ), (1 / 2 : α) ^ k * (r - l) < p → k ≤ fuel →
      (bisectLoop f p l r fuel).isSome = true := by
  intro k
  induction k with
  | zero =>
    intro l r fuel hpow _
    rw [bisectLoop.eq_def]
    dsimp only
    rw [if_neg (not_le.mpr (by rw [pow_zero, one_mul] at hpow; exact hpow))]
    rfl
  | succ k ih =>
    intro l r fuel hpow hk
    rw [bisectLoop.eq_def]
    dsimp only
    split_ifs with hc
    · cases fuel with
      | zero => exact absurd hk (by omega)
      | succ fuel2 =>
        apply ih
        · rw [bisectStep_width]
          calc (1 / 2 : α) ^ k * ((r - l) / 2)
              = (1 / 2) ^ (k + 1) * (r - l) := by ring
            _ < p := hpow
        · omega
    · rfl

/-- A continuous real function whose signs differ at the two ends of an
ordered interval has a zero in the interval (one endpoint may itself be the
zero). -/
theorem exists_root_of_sgn_ne (f : ℝ → ℝ) (hf : Continuous f) (l r : ℝ)
    (hlr : l ≤ r) (h : sgn (f l) ≠ sgn (f r)) :
    ∃ x, x ∈ Set.Icc l r ∧ f x = 0 := by
  rcases lt_trichotomy (f l) 0 with hl | hl | hl
  · rcases lt_trichotomy (f r) 0 with hr | hr | hr
    · exact absurd (by rw [sgn_of_neg hl, sgn_of_neg hr]) h
    · exact ⟨r, Set.right_mem_Icc.mpr hlr, hr⟩
    · obtain ⟨x, hx, hfx⟩ :=
        intermediate_value_Icc hlr hf.continuousOn ⟨hl.le, hr.le⟩
      exact ⟨x, hx, hfx⟩
  · exact ⟨l, Set.left_mem_Icc.mpr hlr, hl⟩
  · rcases lt_trichotomy (f r) 0 with hr | hr | hr
    · obtain ⟨x, hx, hfx⟩ :=
        intermediate_value_Icc' hlr hf.continuousOn ⟨hr.le, hl.le⟩
      exact ⟨x, hx, hfx⟩
    · exact ⟨r, Set.right_mem_Icc.mpr hlr, hr⟩
    · exact absurd (by rw [sgn_of_pos hl, sgn_of_pos hr]) h

end BisectAnalysis

section BisectClaim

/-- C7: for positive precision `p`, continuous `f`, and a bracket with the
strict sign change produced by the search, the bisection loop exits
normally given enough fuel, `__binary_search` returns the midpoint of its
final bracket, and that estimate is within `p` of an actual root of `f`
inside the initial bracket. -/
theorem bisect_midpoint_accuracy (f : ℝ → ℝ) (hf : Continuous f) (p a b : ℝ)
    (hp : 0 < p) (hab : a ≤ b) (hs : sgn (f a) * sgn (f b) < 0) :
    (∃ N, ∀ fuel, N ≤ fuel → (bisectLoop f p a b fuel).isSome = true) ∧
    ∀ (fuel : ℕ) (l r : ℝ), bisectLoop f p a b fuel = some (l, r) →
      binary_search f p a b fuel = some (l + (r - l) / 2) ∧
      ∃ x, x ∈ Set.Icc a b ∧ f x = 0 ∧ |l + (r - l) / 2 - x| ≤ p := by
  constructor
  · have hex : ∃ n : ℕ, (1 / 2 : ℝ) ^ n * (b - a) < p := by
      rcases le_or_lt (b - a) 0 with hba | hba
      · exact ⟨0, by rw [pow_zero, one_mul]; exact lt_of_le_of_lt hba hp⟩
      · obtain ⟨n, hn⟩ :=
          exists_pow_lt_of_lt_one (div_pos hp hba) (by norm_num : (1 / 2 : ℝ) < 1)
        exact ⟨n, (lt_div_iff₀ hba).mp hn⟩
    obtain ⟨n, hn⟩ := hex
    exact ⟨n, fun fuel hfuel => bisectLoop_isSome f p n a b fuel hn hfuel⟩
  · intro fuel l r h
    obtain ⟨h1, h2, h3, h4, h5⟩ :=
      bisectLoop_invariant f p fuel a b l r hab (sgn_ne_of_mul_neg hs) h
    refine ⟨by rw [binary_search, h]; rfl, ?_⟩
    obtain ⟨x, hx, hfx⟩ := exists_root_of_sgn_ne f hf l r h2 h4
    refine ⟨x, ⟨le_trans h1 hx.1, le_trans hx.2 h3⟩, hfx, ?_⟩
    rw [abs_le]
    have h6 := hx.1
    have h7 := hx.2
    exact ⟨by linarith, by linarith⟩

/-- Witness for C7: `f(x) = x - 1/2` on `(0, 1)` with precision `3`; the
loop exits before its first iteration and the returned midpoint `1/2` is
the exact root. -/
theorem bisect_midpoint_accuracy_witness :
    (0 : ℝ) < 3 ∧ (0 : ℝ) ≤ 1 ∧
    sgn ((fun x : ℝ => x - 1 / 2) 0) * sgn ((fun x : ℝ => x - 1 / 2) 1) < 0 ∧
    bisectLoop (fun x : ℝ => x - 1 / 2) 3 0 1 0 = some (0, 1) ∧
    (binary_search (fun x : ℝ => x - 1 / 2) 3 0 1 0 = some (0 + (1 - 0) / 2) ∧
      ∃ x, x ∈ Set.Icc (0 : ℝ) 1 ∧ (fun x : ℝ => x - 1 / 2) x = 0 ∧
        |0 + (1 - 0) / 2 - x| ≤ 3) :=
  ⟨by norm_num, by norm_num, by norm_num [sgn], by norm_num [bisectLoop],
    (bisect_midpoint_accuracy (fun x : ℝ => x - 1 / 2) (by continuity) 3 0 1
        (by norm_num) (by norm_num) (by norm_num [sgn])).2 0 0 1
      (by norm_num [bisectLoop])⟩

end BisectClaim

section GoldenAnalysis

variable {α : Type} [LinearOrderedField α]

omit [LinearOrderedField α] in
/-- Exiting the golden-section loop through either exit path produces a
return or the unbound-local error, never the fuel marker. -/
theorem goldenFinish_ne_fuelOut (x1 : Option α) :
    goldenFinish x1 ≠ GoldenOut.fuelOut := by
  cases x1 <;> simp [goldenFinish]

/-- The golden-section loop never exhausts its fuel once `(1 - gamma)^k`
scales the entry width to at most the precision and at least `k` fuel is
supplied: each executed iteration multiplies the window width by exactly
`1 - gamma`. -/
theorem goldenLoop_not_fuelOut (f : α → α) (p : α) :
    ∀ (k : ℕ) (a b : α) (x1 x2 : Option α) (prev : Option (α × α)) (fuel : ℕ),
      (1 - gamma) ^ k * (b - a) ≤ p → k ≤ fuel →
      goldenLoop f p a b x1 x2 prev fuel ≠ .fuelOut := by
  intro k
  induction k with
  | zero =>
    intro a b x1 x2 prev fuel hpow _
    rw [goldenLoop.eq_def]
    dsimp only
    rw [if_pos (by rw [pow_zero, one_mul] at hpow; exact hpow)]
    exact goldenFinish_ne_fuelOut x1
  | succ k ih =>
    intro a b x1 x2 prev fuel hpow hk
    rw [goldenLoop.eq_def]
    dsimp only
    split_ifs with h1 h2 h3
    · exact goldenFinish_ne_fuelOut x1
    · exact goldenFinish_ne_fuelOut x1
    · cases fuel with
      | zero => exact absurd hk (by omega)
      | succ fuel2 =>
        apply ih
        · rw [show b - (a + gamma * (b - a)) = (1 - gamma) * (b - a) from by ring]
          calc (1 - gamma : α) ^ k * ((1 - gamma) * (b - a))
              = (1 - gamma) ^ (k + 1) * (b - a) := by ring
            _ ≤ p := hpow
        · omega
    · cases fuel with
      | zero => exact absurd hk (by omega)
      | succ fuel2 =>
        apply ih
        · rw [show a + (1 - gamma) * (b - a) - a = (1 - gamma) * (b - a) from by
            ring]
          calc (1 - gamma : α) ^ k * ((1 - gamma) * (b - a))
              = (1 - gamma) ^ (k + 1) * (b - a) := by ring
            _ ≤ p := hpow
        · omega

end GoldenAnalysis

section GoldenClaim

/-- C9: every executed golden-section iteration multiplies the window width
`b - a` by exactly `1 - gamma`, so the width never increases; one loop
iteration really moves `(a, b)` to `goldenNext f a b`; and for any positive
precision and ordered starting bracket a finite fuel bound `N` rules out
non-termination of the loop. -/
theorem golden_width_shrinks_and_terminates (f : ℚ → ℚ) (p a b : ℚ)
    (hp : 0 < p) (hab : a ≤ b) :
    ((goldenNext f a b).2 - (goldenNext f a b).1 = (1 - gamma) * (b - a) ∧
      (goldenNext f a b).2 - (goldenNext f a b).1 ≤ b - a) ∧
    (∀ (x1 x2 : Option ℚ) (prev : Option (ℚ × ℚ)) (fuel : ℕ),
        p < b - a → ¬(a = b ∨ prev = some (a, b)) →
        ∃ nx1 nx2, goldenLoop f p a b x1 x2 prev (fuel + 1) =
          goldenLoop f p (goldenNext f a b).1 (goldenNext f a b).2 nx1 nx2
            (some (a, b)) fuel) ∧
    ∃ N, ∀ (x1 x2 : Option ℚ) (prev : Option (ℚ × ℚ)) (fuel : ℕ), N ≤ fuel →
      goldenLoop f p a b x1 x2 prev fuel ≠ .fuelOut := by
  have hg0 : (0 : ℚ) < gamma := by norm_num [gamma]
  have hg1 : (gamma : ℚ) < 1 := by norm_num [gamma]
  refine ⟨?_, ?_, ?_⟩
  · rw [goldenNext]
    split_ifs <;> dsimp only <;> constructor
    · ring
    · nlinarith [mul_nonneg hg0.le (sub_nonneg.mpr hab)]
    · ring
    · nlinarith [mul_nonneg hg0.le (sub_nonneg.mpr hab)]
  · intro x1 x2 prev fuel hlt hguard
    rw [goldenLoop.eq_def]
    dsimp only
    rw [if_neg (not_le.mpr hlt), if_neg hguard, goldenNext]
    by_cases h3 : sgn (f a) = sgn (f (a + gamma * (b - a)))
    · rw [if_pos h3, if_pos h3]
      exact ⟨some (a + (1 - gamma) * (b - a)),
        some (a + gamma * (b - a) + (1 - gamma) * (b - (a + gamma * (b - a)))),
        rfl⟩
    · rw [if_neg h3, if_neg h3]
      exact ⟨some (a + gamma * (a + (1 - gamma) * (b - a) - a)),
        some (a + gamma * (b - a)), rfl⟩
  · rcases le_or_lt (b - a) 0 with hba | hba
    · exact ⟨0, fun x1 x2 prev fuel _ =>
        goldenLoop_not_fuelOut f p 0 a b x1 x2 prev fuel
          (by rw [pow_zero, one_mul]; exact le_trans hba hp.le) (Nat.zero_le _)⟩
    · obtain ⟨n, hn⟩ := exists_pow_lt_of_lt_one (div_pos hp hba)
        (show (1 - gamma : ℚ) < 1 by norm_num [gamma])
      exact ⟨n, fun x1 x2 prev fuel hfuel =>
        goldenLoop_not_fuelOut f p n a b x1 x2 prev fuel
          (le_of_lt ((lt_div_iff₀ hba).mp hn)) hfuel⟩

/-- Witness for C9 with `f(x) = x`, precision `1`, bracket `(0, 2)`. -/
theorem golden_termination_witness :
    (0 : ℚ) < 1 ∧ (0 : ℚ) ≤ 2 ∧
    ((((goldenNext (fun x : ℚ => x) 0 2).2 -
          (goldenNext (fun x : ℚ => x) 0 2).1 = (1 - gamma) * (2 - 0) ∧
        (goldenNext (fun x : ℚ => x) 0 2).2 -
          (goldenNext (fun x : ℚ => x) 0 2).1 ≤ 2 - 0) ∧
      (∀ (x1 x2 : Option ℚ) (prev : Option (ℚ × ℚ)) (fuel : ℕ),
          (1 : ℚ) < 2 - 0 → ¬((0 : ℚ) = 2 ∨ prev = some (0, 2)) →
          ∃ nx1 nx2, goldenLoop (fun x : ℚ => x) 1 0 2 x1 x2 prev (fuel + 1) =
            goldenLoop (fun x : ℚ => x) 1 (goldenNext (fun x : ℚ => x) 0 2).1
              (goldenNext (fun x : ℚ => x) 0 2).2 nx1 nx2 (some (0, 2)) fuel) ∧
      ∃ N, ∀ (x1 x2 : Option ℚ) (prev : Option (ℚ × ℚ)) (fuel : ℕ), N ≤ fuel →
        goldenLoop (fun x : ℚ => x) 1 0 2 x1 x2 prev fuel ≠ .fuelOut)) :=
  ⟨by norm_num, by norm_num,
    golden_width_shrinks_and_terminates (fun x : ℚ => x) 1 0 2
      (by norm_num) (by norm_num)⟩

end GoldenClaim
